import Mathlib

/-!
Verification of the paired-read merging engine (mergepairs.cc) of vsearch5d.

The C++ code is shallowly embedded: sequences and quality strings become
lists (bases as `Char`, quality symbols as `ℕ`), 64-bit integers become
`ℕ`/`ℤ` (all the quantities involved here are small and non-negative where
`ℕ` is used), and IEEE doubles become `ℚ` for the table-driven score and
expected-error computations (the tables themselves are inputs of the
optimizer and merger, precomputed before any pair is processed) and `ℝ`
for the closed-form probability model of `precompute_qual`/`q_to_p`.
The k-mer diagonal index (`kh_insert_kmers`/`kh_find_diagonals`) and the
base-complement map `chrmap_complement` live outside this translation unit
and enter the embedding as opaque function parameters.

A fatal program exit (out-of-range quality in `get_qual`) is modelled by
`Option`: `none` is the aborted run.
-/

namespace Mergepairs

/-- Reasons for not merging (mergepairs.cc, `enum struct Reason`).
`repeat_` renders the source's `repeat`, which is a Lean keyword. -/
inductive Reason where
  | undefined
  | ok
  | minlen
  | maxlen
  | maxns
  | minovlen
  | maxdiffs
  | maxdiffpct
  | staggered
  | indel
  | repeat_
  | minmergelen
  | maxmergelen
  | maxee
  | minscore
  | nokmers
deriving DecidableEq

/-- The configuration options read by the merging engine (`opt_*` globals
and the `merge_*` statics of mergepairs.cc). -/
structure Config where
  fastq_ascii : ℕ
  fastq_qmin : ℤ
  fastq_qmax : ℤ
  fastq_minlen : ℤ
  fastq_maxlen : ℤ
  fastq_truncqual : ℤ
  fastq_maxns : ℤ
  fastq_allowmergestagger : Bool
  fastq_maxdiffs : ℤ
  fastq_maxdiffpct : ℚ
  fastq_minovlen : ℤ
  fastq_minmergelen : ℤ
  fastq_maxmergelen : ℤ
  fastq_maxee : ℚ
  merge_mindiagcount : ℕ
  merge_minscore : ℚ
  merge_dropmax : ℚ

/-- The precomputed read-only tables of `precompute_qual` plus the external
complement map `chrmap_complement`, indexed by quality symbols / bases. -/
structure Tables where
  merge_qual_same : ℕ → ℕ → ℕ
  merge_qual_diff : ℕ → ℕ → ℕ
  match_score : ℕ → ℕ → ℚ
  mism_score : ℕ → ℕ → ℚ
  q2p : ℕ → ℚ
  comp : Char → Char

/-- One read-pair slot (`struct merge_data_s`).  Buffers are lists; the
allocation-capacity bookkeeping fields have no observable effect on the
merging results and are not part of the model. -/
structure Slot where
  fwd_sequence : List Char
  rev_sequence : List Char
  fwd_quality : List ℕ
  rev_quality : List ℕ
  fwd_length : ℕ
  rev_length : ℕ
  fwd_trunc : ℕ
  rev_trunc : ℕ
  pair_no : ℕ
  merged_sequence : List Char
  merged_quality : List ℕ
  merged_length : ℕ
  ee_merged : ℚ
  ee_fwd : ℚ
  ee_rev : ℚ
  fwd_errors : ℕ
  rev_errors : ℕ
  offset : ℕ
  merged : Bool
  reason : Reason
deriving DecidableEq

/-- The external k-mer diagonal index: given the forward sequence (inserted
into the hash) with its truncated length, the reverse sequence with its
truncated length, and a diagonal number, the count of shared k-mers on
that diagonal (`kh_insert_kmers` followed by `kh_find_diagonals`). -/
def KhFun : Type := List Char → ℕ → List Char → ℕ → ℕ → ℕ

/-- `get_qual`: quality symbol to quality value, fatal (`none`) when the
value falls outside the configured `[qmin, qmax]` range. -/
def get_qual (cfg : Config) (sym : ℕ) : Option ℤ :=
  let quality_value : ℤ := (sym : ℤ) - (cfg.fastq_ascii : ℤ)
  if quality_value < cfg.fastq_qmin then none
  else if quality_value > cfg.fastq_qmax then none
  else some quality_value

/-- The quality-truncation scan of `process`: walk the quality symbols in
order; `none` when `get_qual` is fatal on a scanned symbol, otherwise
`some (some i)` for the first position `i` whose quality value is at most
`opt_fastq_truncqual`, and `some none` when no symbol breaks the scan. -/
def truncFind (cfg : Config) : List ℕ → Option (Option ℕ)
  | [] => some none
  | q :: rest =>
      match get_qual cfg q with
      | none => none
      | some qv =>
          if qv ≤ cfg.fastq_truncqual then some (some 0)
          else (truncFind cfg rest).map (Option.map (fun n => n + 1))

/-- The N-recoding loop of `process`: every position `i < trunc` whose base
is `N` has its quality symbol replaced by `opt_fastq_ascii`. -/
def recode_n (ascii : ℕ) (seq : List Char) (qual : List ℕ) (trunc : ℕ) : List ℕ :=
  qual.mapIdx (fun i q => if i < trunc ∧ seq.getD i 'A' = 'N' then ascii else q)

/-- Number of `N` bases among the first `trunc` positions of a sequence. -/
def ncount (seq : List Char) (trunc : ℕ) : ℕ :=
  ((seq.take trunc).filter (fun c => c = 'N')).length

/-- `merge_sym`: consensus base and quality for one overlap position.
Returns `(sym, qual)`. -/
def merge_sym (tb : Tables) (fwd_sym rev_sym : Char) (fwd_qual rev_qual : ℕ) : Char × ℕ :=
  if rev_sym = 'N' then (fwd_sym, fwd_qual)
  else if fwd_sym = 'N' then (rev_sym, rev_qual)
  else if fwd_sym = rev_sym then (fwd_sym, tb.merge_qual_same fwd_qual rev_qual)
  else if rev_qual < fwd_qual then (fwd_sym, tb.merge_qual_diff fwd_qual rev_qual)
  else (rev_sym, tb.merge_qual_diff rev_qual fwd_qual)

/-- One position of the overlap zone of `merge`: the consensus symbol and
quality together with the original forward symbol, complemented reverse
symbol and the two quality symbols read at that position. -/
structure OverlapCell where
  sym : Char
  qual : ℕ
  fwd_sym : Char
  rev_sym : Char
  fwd_qual : ℕ
  rev_qual : ℕ
deriving DecidableEq

/-- The overlap zone of `merge`: cell `j` pairs forward position
`fwd5 + j` with reverse position `rcount - 1 - j` (the reverse read is
walked backwards and complemented).  As in the source, a side whose
quality symbol is below 2 is passed to `merge_sym` as `N`. -/
def overlapCells (tb : Tables) (fs : List Char) (fq : List ℕ)
    (rs : List Char) (rq : List ℕ) (fwd5 rcount n2 : ℕ) : List OverlapCell :=
  (List.range n2).map (fun j =>
    let fwd_pos := fwd5 + j
    let rev_pos := rcount - 1 - j
    let fsym := fs.getD fwd_pos 'A'
    let rsym := tb.comp (rs.getD rev_pos 'A')
    let fqual := fq.getD fwd_pos 0
    let rqual := rq.getD rev_pos 0
    let sq := merge_sym tb (if fqual < 2 then 'N' else fsym)
                          (if rqual < 2 then 'N' else rsym) fqual rqual
    { sym := sq.1, qual := sq.2, fwd_sym := fsym, rev_sym := rsym,
      fwd_qual := fqual, rev_qual := rqual })

/-- The fields written by `merge` on a slot. -/
structure MergeOut where
  merged_sequence : List Char
  merged_quality : List ℕ
  merged_length : ℕ
  ee_merged : ℚ
  ee_fwd : ℚ
  ee_rev : ℚ
  fwd_errors : ℕ
  rev_errors : ℕ
  accepted : Bool
  reason : Reason
deriving DecidableEq

/-- `merge`: build the merged sequence in three zones (5' forward-only
overhang, overlap consensus, 5' reverse-only overhang), accumulate the
expected-error sums and observed-error counts, and classify against
`opt_fastq_maxee`.  The zone extents mirror the source: the loop of the
overlap zone runs while the forward cursor is below `fwd_trunc` and the
reverse cursor is non-negative, hence `n2` iterations; null-termination of
the output buffers is rendered by the output lists having exactly
`merged_length` entries. -/
def mergeUpd (cfg : Config) (tb : Tables) (fs : List Char) (fq : List ℕ)
    (rs : List Char) (rq : List ℕ) (ft rt offset : ℕ) : MergeOut :=
  let fwd5 := ft - offset
  let rev3 := offset - ft
  let rcount := rt - rev3
  let n2 := min (ft - fwd5) rcount
  let cells := overlapCells tb fs fq rs rq fwd5 rcount n2
  let seq1 := fs.take fwd5
  let qual1 := fq.take fwd5
  let seq3 := ((rs.take (rcount - n2)).reverse).map tb.comp
  let qual3 := (rq.take (rcount - n2)).reverse
  let mseq := seq1 ++ cells.map OverlapCell.sym ++ seq3
  let mqual := qual1 ++ cells.map OverlapCell.qual ++ qual3
  let eeM := (mqual.map tb.q2p).sum
  let eeF := ((qual1 ++ cells.map OverlapCell.fwd_qual).map tb.q2p).sum
  let eeR := ((cells.map OverlapCell.rev_qual ++ qual3).map tb.q2p).sum
  let fErr := (cells.filter (fun c => c.sym ≠ c.fwd_sym)).length
  let rErr := (cells.filter (fun c => c.sym ≠ c.rev_sym)).length
  let acc : Bool := decide (eeM ≤ cfg.fastq_maxee)
  { merged_sequence := mseq, merged_quality := mqual, merged_length := mseq.length,
    ee_merged := eeM, ee_fwd := eeF, ee_rev := eeR,
    fwd_errors := fErr, rev_errors := rErr,
    accepted := acc, reason := if acc then Reason.ok else Reason.maxee }

/-- Write the fields computed by `merge` back into a slot; the `merged`
flag is set only on acceptance, exactly as in the source. -/
def applySlot (s : Slot) (mo : MergeOut) : Slot :=
  { s with merged_sequence := mo.merged_sequence, merged_quality := mo.merged_quality,
           merged_length := mo.merged_length, ee_merged := mo.ee_merged,
           ee_fwd := mo.ee_fwd, ee_rev := mo.ee_rev,
           fwd_errors := mo.fwd_errors, rev_errors := mo.rev_errors,
           reason := mo.reason,
           merged := if mo.accepted then true else s.merged }

/-- Running state of the diagonal scan of `optimize`. -/
structure ScanState where
  best_score : ℚ
  best_i : ℕ
  best_diffs : ℕ
  hits : ℕ
  kmers : Bool
deriving DecidableEq

/-- Ungapped alignment score of one diagonal of `optimize` (total overlap
length `i`): returns the score (zeroed when the largest drop from the
running maximum reaches `merge_dropmax`) and the mismatch count.  The fold
state is `(score, score_high, dropmax, diffs)`. -/
def diagScore (cfg : Config) (tb : Tables) (fs : List Char) (fq : List ℕ)
    (rs : List Char) (rq : List ℕ) (ft rt i : ℕ) : ℚ × ℕ :=
  let fwd_3prime_overhang := i - rt
  let rev_3prime_overhang := i - ft
  let overlap := i - fwd_3prime_overhang - rev_3prime_overhang
  let fwd_pos_start := ft - fwd_3prime_overhang - 1
  let rev_pos_start := rt - rev_3prime_overhang - overlap
  let res := (List.range overlap).foldl (fun st j =>
    let fwd_pos := fwd_pos_start - j
    let rev_pos := rev_pos_start + j
    let fsym := fs.getD fwd_pos 'A'
    let rsym := tb.comp (rs.getD rev_pos 'A')
    let fqual := fq.getD fwd_pos 0
    let rqual := rq.getD rev_pos 0
    if fsym = rsym then
      let sc := st.1 + tb.match_score fqual rqual
      (sc, max sc st.2.1, st.2.2.1, st.2.2.2)
    else
      let sc := st.1 + tb.mism_score fqual rqual
      let dm := if sc < st.2.1 - st.2.2.1 then st.2.1 - sc else st.2.2.1
      (sc, st.2.1, dm, st.2.2.2 + 1)) ((0 : ℚ), (0 : ℚ), (0 : ℚ), (0 : ℕ))
  (if cfg.merge_dropmax ≤ res.2.2.1 then 0 else res.1, res.2.2.2)

/-- One iteration of the outer diagonal loop of `optimize` for total
overlap length `i`: diagonals with enough shared k-mers are scored, the
significance-hit count and running best are maintained. -/
def scanFold (cfg : Config) (tb : Tables) (diags : ℕ → ℕ) (fs : List Char)
    (fq : List ℕ) (rs : List Char) (rq : List ℕ) (ft rt : ℕ)
    (st : ScanState) (i : ℕ) : ScanState :=
  let diag := rt + ft - i
  if cfg.merge_mindiagcount ≤ diags diag then
    let sd := diagScore cfg tb fs fq rs rq ft rt i
    let hits := if cfg.merge_minscore ≤ sd.1 then st.hits + 1 else st.hits
    if st.best_score < sd.1 then
      { best_score := sd.1, best_i := i, best_diffs := sd.2, hits := hits, kmers := true }
    else
      { st with hits := hits, kmers := true }
  else st

/-- The diagonal scan of `optimize` over all total overlap lengths
`i ∈ [1, fwd_trunc + rev_trunc - 1]`. -/
def optimizeScan (cfg : Config) (tb : Tables) (diags : ℕ → ℕ) (fs : List Char)
    (fq : List ℕ) (rs : List Char) (rq : List ℕ) (ft rt : ℕ) : ScanState :=
  (List.range' 1 (ft + rt - 1)).foldl
    (scanFold cfg tb diags fs fq rs rq ft rt)
    { best_score := 0, best_i := 0, best_diffs := 0, hits := 0, kmers := false }

/-- The rejection cascade at the tail of `optimize`, applied to the scan
summary: each failing test writes its Reason and returns 0; when every
test passes the winning total overlap length `best_i` is returned and no
Reason is written (`none`). -/
def rejectionCascade (cfg : Config) (ft rt : ℕ) (st : ScanState) : Option Reason × ℕ :=
  if 1 < st.hits then (some Reason.repeat_, 0)
  else if cfg.fastq_allowmergestagger = false ∧ ft < st.best_i then
    (some Reason.staggered, 0)
  else if cfg.fastq_maxdiffs < (st.best_diffs : ℤ) then (some Reason.maxdiffs, 0)
  else if cfg.fastq_maxdiffpct < 100 * (st.best_diffs : ℚ) / (st.best_i : ℚ) then
    (some Reason.maxdiffpct, 0)
  else if st.kmers = false then (some Reason.nokmers, 0)
  else if st.best_score < cfg.merge_minscore then (some Reason.minscore, 0)
  else if (st.best_i : ℤ) < cfg.fastq_minovlen then (some Reason.minovlen, 0)
  else if ((ft : ℤ) + (rt : ℤ) - (st.best_i : ℤ)) < cfg.fastq_minmergelen then
    (some Reason.minmergelen, 0)
  else if cfg.fastq_maxmergelen < ((ft : ℤ) + (rt : ℤ) - (st.best_i : ℤ)) then
    (some Reason.maxmergelen, 0)
  else (none, st.best_i)

/-- `optimize`: scan the diagonals reported by the k-mer index, then apply
the rejection cascade.  Returns the `Reason` written to the slot (`none`
when the pair is accepted and the slot's reason is left untouched)
together with the returned offset (`0` on rejection, the winning total
overlap length `best_i` otherwise). -/
def optimize (cfg : Config) (tb : Tables) (kh : KhFun) (fs : List Char)
    (fq : List ℕ) (rs : List Char) (rq : List ℕ) (ft rt : ℕ) : Option Reason × ℕ :=
  rejectionCascade cfg ft rt
    (optimizeScan cfg tb (fun d => kh fs ft rs rt d) fs fq rs rq ft rt)

/-- The two raw-length checks at the head of `process`.  The first
component is the Reason written so far (`none`: untouched), the second is
the `skip` flag.  As in the source, the maxlen branch is not guarded by
`skip` and overwrites a minlen Reason when both checks fail. -/
def lenCheck (cfg : Config) (fl rl : ℕ) : Option Reason × Bool :=
  let ra := if (fl : ℤ) < cfg.fastq_minlen ∨ (rl : ℤ) < cfg.fastq_minlen
            then (some Reason.minlen, true) else ((none : Option Reason), false)
  if (fl : ℤ) > cfg.fastq_maxlen ∨ (rl : ℤ) > cfg.fastq_maxlen
  then (some Reason.maxlen, true) else ra

/-- One quality-truncation block of `process` (run for the forward and
then for the reverse read): when not skipping, scan for the break
position, fail the pair with `minlen` when the truncated length is below
the minimum.  Yields the updated `(Reason, skip)` state and the truncated
length; `none` is the fatal exit of `get_qual`. -/
def truncStage (cfg : Config) (qs : List ℕ) (len : ℕ) (r : Option Reason × Bool) :
    Option ((Option Reason × Bool) × ℕ) :=
  if r.2 then some (r, len)
  else match truncFind cfg (qs.take len) with
    | none => none
    | some brk =>
        if ((brk.getD len : ℕ) : ℤ) < cfg.fastq_minlen
        then some ((some Reason.minlen, true), brk.getD len)
        else some (r, brk.getD len)

/-- One N-counting block of `process`: when not skipping, recode the
quality of every `N` and fail the pair with `maxns` when the count
exceeds the maximum.  Yields the updated `(Reason, skip)` state and the
(possibly recoded) quality string. -/
def nStage (cfg : Config) (seq : List Char) (qual : List ℕ) (trunc : ℕ)
    (r : Option Reason × Bool) : (Option Reason × Bool) × List ℕ :=
  if r.2 then (r, qual)
  else
    let q2 := recode_n cfg.fastq_ascii seq qual trunc
    if cfg.fastq_maxns < (ncount seq trunc : ℤ) then ((some Reason.maxns, true), q2)
    else (r, q2)

/-- Writing the results of the check stages and the optimizer back into
the slot, and running the merger on an accepted (positive) offset.  `rr`
is the Reason recorded by the failing check stage (if any), `opt` the
Reason/offset pair of the optimizer stage. -/
def processFinish (cfg : Config) (tb : Tables) (fs : List Char) (fq2 : List ℕ)
    (rs : List Char) (rq2 : List ℕ) (ft rt : ℕ) (rr : Option Reason)
    (opt : Option Reason × ℕ) (s0 : Slot) : Slot :=
  let base : Slot :=
    { s0 with merged := false, fwd_trunc := ft, rev_trunc := rt,
              fwd_quality := fq2, rev_quality := rq2, offset := opt.2,
              reason := opt.1.getD (rr.getD s0.reason) }
  if 0 < opt.2 then applySlot base (mergeUpd cfg tb fs fq2 rs rq2 ft rt opt.2)
  else base

/-- Body of `process`, taking the record fields the operation reads
(sequences, qualities, raw lengths) as explicit arguments; the slot `s0`
supplies the fields that `process` does not overwrite.  `none` is the
fatal exit from `get_qual` during quality truncation. -/
def processAux (cfg : Config) (tb : Tables) (kh : KhFun)
    (fs rs : List Char) (fq rq : List ℕ) (fl rl : ℕ) (s0 : Slot) : Option Slot :=
  match truncStage cfg fq fl (lenCheck cfg fl rl) with
  | none => none
  | some p1 =>
    match truncStage cfg rq rl p1.1 with
    | none => none
    | some p2 =>
      let n1 := nStage cfg fs fq p1.2 p2.1
      let n2 := nStage cfg rs rq p2.2 n1.1
      -- overlap optimizer, run only when no earlier check failed
      let opt : Option Reason × ℕ :=
        if n2.1.2 then (none, 0)
        else optimize cfg tb kh fs n1.2 rs n2.2 p1.2 p2.2
      some (processFinish cfg tb fs n1.2 rs n2.2 p1.2 p2.2 n2.1.1 opt s0)

/-- The per-pair operation `process`: length checks, quality truncation,
N counting/recoding, overlap optimizer, and (on an accepted offset) the
merger. -/
def process (cfg : Config) (tb : Tables) (kh : KhFun) (s : Slot) : Option Slot :=
  processAux cfg tb kh s.fwd_sequence s.rev_sequence s.fwd_quality s.rev_quality
    s.fwd_length s.rev_length s

/-! ## Run-level accounting (keep / discard / totals) -/

/-- The global run accumulators of mergepairs.cc.  The fifteen per-Reason
failure counters of `discard` are modelled as one function `failed`. -/
structure RunStats where
  merged : ℕ
  notmerged : ℕ
  total : ℕ
  failed : Reason → ℕ
  sum_fragment_length : ℚ
  sum_squared_fragment_length : ℚ
  sum_ee_fwd : ℚ
  sum_ee_rev : ℚ
  sum_ee_merged : ℚ
  sum_errors_fwd : ℕ
  sum_errors_rev : ℕ

/-- All accumulators zero, as at merge-run start. -/
def initStats : RunStats :=
  { merged := 0, notmerged := 0, total := 0, failed := fun _ => 0,
    sum_fragment_length := 0, sum_squared_fragment_length := 0,
    sum_ee_fwd := 0, sum_ee_rev := 0, sum_ee_merged := 0,
    sum_errors_fwd := 0, sum_errors_rev := 0 }

/-- `keep`: count the pair as merged and accumulate its statistics. -/
def keepStep (st : RunStats) (s : Slot) : RunStats :=
  { st with merged := st.merged + 1,
            sum_fragment_length := st.sum_fragment_length + s.merged_length,
            sum_squared_fragment_length :=
              st.sum_squared_fragment_length + (s.merged_length : ℚ) * s.merged_length,
            sum_ee_merged := st.sum_ee_merged + s.ee_merged,
            sum_ee_fwd := st.sum_ee_fwd + s.ee_fwd,
            sum_ee_rev := st.sum_ee_rev + s.ee_rev,
            sum_errors_fwd := st.sum_errors_fwd + s.fwd_errors,
            sum_errors_rev := st.sum_errors_rev + s.rev_errors }

/-- `discard`: bump the failure counter matching the slot's reason (the
`ok` arm of the switch is empty) and count the pair as not merged. -/
def discardStep (st : RunStats) (s : Slot) : RunStats :=
  { st with notmerged := st.notmerged + 1,
            failed := fun r =>
              if r = s.reason ∧ r ≠ Reason.ok then st.failed r + 1 else st.failed r }

/-- `keep_or_discard`: a processed pair goes to exactly one of `keep` and
`discard`, depending on its `merged` flag. -/
def keep_or_discard (st : RunStats) (s : Slot) : RunStats :=
  if s.merged then keepStep st s else discardStep st s

/-- A whole merging run over a stream of read pairs: each pair read
increments `total` once (`read_pair`), is processed once, and is then
classified by `keep_or_discard` (the chunk scheduler hands every filled
slot to the processor exactly once and every processed slot to the writer
exactly once).  `none` is a fatal abort during `process`. -/
def runMerge (cfg : Config) (tb : Tables) (kh : KhFun) :
    List Slot → RunStats → Option RunStats
  | [], st => some st
  | s :: rest, st =>
      match process cfg tb kh s with
      | none => none
      | some t => runMerge cfg tb kh rest (keep_or_discard { st with total := st.total + 1 } t)

/-- `print_stats` emits the "indel errors" line iff `failed_indel` is
non-zero. -/
def indelLineShown (st : RunStats) : Prop := st.failed Reason.indel ≠ 0

instance (st : RunStats) : Decidable (indelLineShown st) := by
  unfold indelLineShown; infer_instance

/-! ## The real-valued quality model (`q_to_p`, `precompute_qual`) -/

/-- `q_to_p`: per-symbol error probability.  Probability `10^(-(sym -
ascii)/10)`, clamped to 0.75 when the quality value is below 2. -/
noncomputable def q_to_p (ascii sym : ℤ) : ℝ :=
  let quality_value : ℤ := sym - ascii
  if quality_value < 2 then 0.75
  else (10 : ℝ) ^ (-(quality_value : ℝ) / 10)

/-- The posterior error probability on agreement of `precompute_qual`
(Edgar & Flyvbjerg 2015). -/
noncomputable def p_same (ascii x y : ℤ) : ℝ :=
  let px := q_to_p ascii x
  let py := q_to_p ascii y
  px * py / 3 / (1 - px - py + 4 * px * py / 3)

/-- The posterior error probability on disagreement of `precompute_qual`
(`x` the higher-quality side). -/
noncomputable def p_diff (ascii x y : ℤ) : ℝ :=
  let px := q_to_p ascii x
  let py := q_to_p ascii y
  px * (1 - py / 3) / (px + py - 4 * px * py / 3)

/-- Probability-to-symbol conversion of `precompute_qual`: round
`-10·log10 p`, clamp to `[qminout, qmaxout]`, add the ASCII offset. -/
noncomputable def qual_clamped (ascii qminout qmaxout : ℤ) (p : ℝ) : ℝ :=
  let q₀ : ℝ := (round (-10 * Real.logb 10 p) : ℤ)
  let q₁ : ℝ := min q₀ (qmaxout : ℝ)
  let q₂ : ℝ := max q₁ (qminout : ℝ)
  (ascii : ℝ) + q₂

/-- Entry `(x, y)` of the `merge_qual_same` table of `precompute_qual`. -/
noncomputable def merge_qual_same_val (ascii qminout qmaxout x y : ℤ) : ℝ :=
  qual_clamped ascii qminout qmaxout (p_same ascii x y)

/-- Entry `(x, y)` of the `merge_qual_diff` table of `precompute_qual`. -/
noncomputable def merge_qual_diff_val (ascii qminout qmaxout x y : ℤ) : ℝ :=
  qual_clamped ascii qminout qmaxout (p_diff ascii x y)

/-! ## The rejection policy of the specification (for C1) -/

/-- The rejection checks of §4.2 step 3 of the specification, in the
spec's order, each paired with the Reason it assigns. -/
def rejectionOrder (cfg : Config) (ft rt : ℕ) (st : ScanState) : List (Bool × Reason) :=
  [ (decide (1 < st.hits), Reason.repeat_),
    (decide (cfg.fastq_allowmergestagger = false ∧ ft < st.best_i), Reason.staggered),
    (decide (cfg.fastq_maxdiffs < (st.best_diffs : ℤ)), Reason.maxdiffs),
    (decide (cfg.fastq_maxdiffpct < 100 * (st.best_diffs : ℚ) / (st.best_i : ℚ)),
      Reason.maxdiffpct),
    (decide (st.kmers = false), Reason.nokmers),
    (decide (st.best_score < cfg.merge_minscore), Reason.minscore),
    (decide ((st.best_i : ℤ) < cfg.fastq_minovlen), Reason.minovlen),
    (decide (((ft : ℤ) + (rt : ℤ) - (st.best_i : ℤ)) < cfg.fastq_minmergelen),
      Reason.minmergelen),
    (decide (cfg.fastq_maxmergelen < ((ft : ℤ) + (rt : ℤ) - (st.best_i : ℤ))),
      Reason.maxmergelen) ]

/-- First failing check of the spec's ordered rejection policy. -/
def firstRejection (cfg : Config) (ft rt : ℕ) (st : ScanState) : Option Reason :=
  ((rejectionOrder cfg ft rt st).find? (fun c => c.1)).map (fun c => c.2)

/-- Control reaches the mismatch-percentage test of `optimize` exactly
when the repeat, staggered and maxdiffs checks all passed (for C6). -/
def maxdiffpctEvaluated (cfg : Config) (ft : ℕ) (st : ScanState) : Prop :=
  ¬ 1 < st.hits ∧
  ¬ (cfg.fastq_allowmergestagger = false ∧ ft < st.best_i) ∧
  ¬ cfg.fastq_maxdiffs < (st.best_diffs : ℤ)

instance (cfg : Config) (ft : ℕ) (st : ScanState) :
    Decidable (maxdiffpctEvaluated cfg ft st) := by
  unfold maxdiffpctEvaluated; infer_instance

/-! ## Concrete configurations, tables and slots used as witnesses -/

/-- A concrete table set: constant score/quality tables, identity
complement, constant per-symbol error probability 1/10. -/
def exTb : Tables :=
  { merge_qual_same := fun _ _ => 40, merge_qual_diff := fun x _ => x,
    match_score := fun _ _ => 2, mism_score := fun _ _ => -4,
    q2p := fun _ => 1/10, comp := fun c => c }

/-- A k-mer index reporting no shared k-mers on any diagonal. -/
def exKh0 : KhFun := fun _ _ _ _ _ => 0

/-- A permissive configuration under which a length-1 pair merges. -/
def exCfg : Config :=
  { fastq_ascii := 33, fastq_qmin := 0, fastq_qmax := 41,
    fastq_minlen := 0, fastq_maxlen := 100, fastq_truncqual := 0,
    fastq_maxns := 5, fastq_allowmergestagger := false,
    fastq_maxdiffs := 10, fastq_maxdiffpct := 100,
    fastq_minovlen := 1, fastq_minmergelen := 0, fastq_maxmergelen := 100,
    fastq_maxee := 1, merge_mindiagcount := 0, merge_minscore := 1,
    merge_dropmax := 16 }

/-- A length-1 read pair in a fresh slot. -/
def exSlot : Slot :=
  { fwd_sequence := ['A'], rev_sequence := ['A'],
    fwd_quality := [73], rev_quality := [73],
    fwd_length := 1, rev_length := 1, fwd_trunc := 0, rev_trunc := 0,
    pair_no := 0, merged_sequence := [], merged_quality := [],
    merged_length := 0, ee_merged := 0, ee_fwd := 0, ee_rev := 0,
    fwd_errors := 0, rev_errors := 0, offset := 0, merged := false,
    reason := Reason.undefined }

/-- The slot produced by `process exCfg exTb exKh0 exSlot`. -/
def exMerged : Slot :=
  { fwd_sequence := ['A'], rev_sequence := ['A'],
    fwd_quality := [73], rev_quality := [73],
    fwd_length := 1, rev_length := 1, fwd_trunc := 1, rev_trunc := 1,
    pair_no := 0, merged_sequence := ['A'], merged_quality := [40],
    merged_length := 1, ee_merged := 1/10, ee_fwd := 1/10, ee_rev := 1/10,
    fwd_errors := 0, rev_errors := 0, offset := 1, merged := true,
    reason := Reason.ok }

/-- A configuration with a raw-length window `[5, 10]`. -/
def exCfgLen : Config :=
  { exCfg with fastq_minlen := 5, fastq_maxlen := 10 }

/-- A pair whose forward read (length 3) is below `minlen = 5` and whose
reverse read (length 20) is above `maxlen = 10`. -/
def exSlotShortLong : Slot :=
  { exSlot with fwd_sequence := ['A', 'A', 'A'], rev_sequence := ['A', 'A', 'A'],
                fwd_quality := [73, 73, 73], rev_quality := [73, 73, 73],
                fwd_length := 3, rev_length := 20 }

/-- A pair with both reads of length 3, below `minlen = 5` and within
`maxlen = 10`. -/
def exSlotShort : Slot := { exSlotShortLong with rev_length := 3 }

/-- Same records as `exSlotShort`, but different stale contents in the
reused merged-sequence buffer. -/
def exSlotShortB : Slot := { exSlotShort with merged_sequence := ['C'] }

/-- A configuration allowing no ambiguous bases (`maxns = 0`). -/
def exCfgNs : Config := { exCfg with fastq_maxns := 0 }

/-- A length-1 pair whose forward read is a single `N`. -/
def exSlotN : Slot := { exSlot with fwd_sequence := ['N'] }

/-- A configuration whose minimum diagonal k-mer count (4, the source
default) no diagonal of `exKh0` can reach. -/
def exCfgNk : Config := { exCfg with merge_mindiagcount := 4 }

/-- A length-5 homopolymer sequence and its quality string. -/
def exSeq5 : List Char := ['A', 'A', 'A', 'A', 'A']

/-- Quality symbols of `exSeq5`. -/
def exQual5 : List ℕ := [73, 73, 73, 73, 73]

/-- The scan summary of `optimize` on `exSeq5`/`exQual5` under `exCfgNk`:
no diagonal qualifies, so the summary stays at its initial value. -/
def exScanNk : ScanState :=
  optimizeScan exCfgNk exTb (fun d => exKh0 exSeq5 5 exSeq5 5 d)
    exSeq5 exQual5 exSeq5 exQual5 5 5

/-! ## Helper lemmas -/

lemma rejectionCascade_eq_firstRejection (cfg : Config) (ft rt : ℕ) (st : ScanState) :
    rejectionCascade cfg ft rt st =
      match firstRejection cfg ft rt st with
      | some r => (some r, 0)
      | none => (none, st.best_i) := by
  unfold rejectionCascade firstRejection rejectionOrder
  by_cases h1 : 1 < st.hits
  · simp [List.find?, h1]
  by_cases h2 : cfg.fastq_allowmergestagger = false ∧ ft < st.best_i
  · simp [List.find?, h1, h2]
  by_cases h3 : cfg.fastq_maxdiffs < (st.best_diffs : ℤ)
  · simp [List.find?, h1, h2, h3]
  by_cases h4 : cfg.fastq_maxdiffpct < 100 * (st.best_diffs : ℚ) / (st.best_i : ℚ)
  · simp [List.find?, h1, h2, h3, h4]
  by_cases h5 : st.kmers = false
  · simp [List.find?, h1, h2, h3, h4, h5]
  by_cases h6 : st.best_score < cfg.merge_minscore
  · simp [List.find?, h1, h2, h3, h4, h5, h6]
  by_cases h7 : (st.best_i : ℤ) < cfg.fastq_minovlen
  · simp [List.find?, h1, h2, h3, h4, h5, h6, h7]
  by_cases h8 : ((ft : ℤ) + (rt : ℤ) - (st.best_i : ℤ)) < cfg.fastq_minmergelen
  · simp [List.find?, h1, h2, h3, h4, h5, h6, h7, h8]
  by_cases h9 : cfg.fastq_maxmergelen < ((ft : ℤ) + (rt : ℤ) - (st.best_i : ℤ))
  · simp [List.find?, h1, h2, h3, h4, h5, h6, h7, h8, h9]
  simp [List.find?, h1, h2, h3, h4, h5, h6, h7, h8, h9]

lemma scanFold_preserves (cfg : Config) (tb : Tables) (diags : ℕ → ℕ)
    (fs : List Char) (fq : List ℕ) (rs : List Char) (rq : List ℕ) (ft rt : ℕ)
    (st : ScanState) (i : ℕ) (hi : 1 ≤ i)
    (h : st.best_i = 0 → st.best_diffs = 0) :
    (scanFold cfg tb diags fs fq rs rq ft rt st i).best_i = 0 →
    (scanFold cfg tb diags fs fq rs rq ft rt st i).best_diffs = 0 := by
  simp only [scanFold]
  split_ifs <;> intro h0 <;> simp_all

lemma scan_foldl_preserves (cfg : Config) (tb : Tables) (diags : ℕ → ℕ)
    (fs : List Char) (fq : List ℕ) (rs : List Char) (rq : List ℕ) (ft rt : ℕ)
    (l : List ℕ) (st : ScanState) (hmem : ∀ i ∈ l, 1 ≤ i)
    (h : st.best_i = 0 → st.best_diffs = 0) :
    (l.foldl (scanFold cfg tb diags fs fq rs rq ft rt) st).best_i = 0 →
    (l.foldl (scanFold cfg tb diags fs fq rs rq ft rt) st).best_diffs = 0 := by
  induction l generalizing st with
  | nil => exact h
  | cons i l ih =>
      simp only [List.foldl_cons]
      exact ih _ (fun j hj => hmem j (List.mem_cons_of_mem _ hj))
        (scanFold_preserves cfg tb diags fs fq rs rq ft rt st i
          (hmem i (List.mem_cons_self _ _)) h)

lemma optimizeScan_best_i_zero (cfg : Config) (tb : Tables) (diags : ℕ → ℕ)
    (fs : List Char) (fq : List ℕ) (rs : List Char) (rq : List ℕ) (ft rt : ℕ) :
    (optimizeScan cfg tb diags fs fq rs rq ft rt).best_i = 0 →
    (optimizeScan cfg tb diags fs fq rs rq ft rt).best_diffs = 0 := by
  unfold optimizeScan
  apply scan_foldl_preserves
  · intro i hi
    have := List.mem_range'_1.mp hi
    omega
  · intro _
    rfl

lemma processAux_eq_some (cfg : Config) (tb : Tables) (kh : KhFun)
    (fs rs : List Char) (fq rq : List ℕ) (fl rl : ℕ) (s0 t : Slot)
    (h : processAux cfg tb kh fs rs fq rq fl rl s0 = some t) :
    ∃ p1 p2, truncStage cfg fq fl (lenCheck cfg fl rl) = some p1 ∧
      truncStage cfg rq rl p1.1 = some p2 ∧
      t = processFinish cfg tb fs (nStage cfg fs fq p1.2 p2.1).2 rs
            (nStage cfg rs rq p2.2 (nStage cfg fs fq p1.2 p2.1).1).2 p1.2 p2.2
            (nStage cfg rs rq p2.2 (nStage cfg fs fq p1.2 p2.1).1).1.1
            (if (nStage cfg rs rq p2.2 (nStage cfg fs fq p1.2 p2.1).1).1.2 then (none, 0)
             else optimize cfg tb kh fs (nStage cfg fs fq p1.2 p2.1).2 rs
                    (nStage cfg rs rq p2.2 (nStage cfg fs fq p1.2 p2.1).1).2 p1.2 p2.2)
            s0 := by
  unfold processAux at h
  split at h
  · cases h
  next p1 heq1 =>
    split at h
    · cases h
    next p2 heq2 =>
      exact ⟨p1, p2, heq1, heq2, (Option.some_inj.mp h).symm⟩

lemma mergeUpd_fields (cfg : Config) (tb : Tables) (fs : List Char) (fq : List ℕ)
    (rs : List Char) (rq : List ℕ) (ft rt o : ℕ) :
    (mergeUpd cfg tb fs fq rs rq ft rt o).accepted
        = decide ((mergeUpd cfg tb fs fq rs rq ft rt o).ee_merged ≤ cfg.fastq_maxee) ∧
    (mergeUpd cfg tb fs fq rs rq ft rt o).reason
        = (if (mergeUpd cfg tb fs fq rs rq ft rt o).accepted = true
           then Reason.ok else Reason.maxee) := by
  unfold mergeUpd
  simp

lemma processFinish_offset_pos (cfg : Config) (tb : Tables) (fs : List Char)
    (fq2 : List ℕ) (rs : List Char) (rq2 : List ℕ) (ft rt : ℕ) (rr : Option Reason)
    (opt : Option Reason × ℕ) (s0 : Slot)
    (ho : 0 < (processFinish cfg tb fs fq2 rs rq2 ft rt rr opt s0).offset) :
    (processFinish cfg tb fs fq2 rs rq2 ft rt rr opt s0)
      = applySlot
          { s0 with merged := false, fwd_trunc := ft, rev_trunc := rt,
                    fwd_quality := fq2, rev_quality := rq2, offset := opt.2,
                    reason := opt.1.getD (rr.getD s0.reason) }
          (mergeUpd cfg tb fs fq2 rs rq2 ft rt opt.2) := by
  by_cases h : 0 < opt.2
  · simp only [processFinish]
    rw [if_pos h]
  · exfalso
    apply h
    simpa only [processFinish, if_neg h] using ho

lemma lenCheck_ex : lenCheck exCfg 1 1 = (none, false) := by decide

lemma truncStage_ex : truncStage exCfg [73] 1 (none, false) = some ((none, false), 1) := by
  decide

lemma nStage_ex : nStage exCfg ['A'] [73] 1 (none, false) = ((none, false), [73]) := by
  decide

lemma optimize_ex : optimize exCfg exTb exKh0 ['A'] [73] ['A'] [73] 1 1 = (none, 1) := by
  norm_num [optimize, rejectionCascade, optimizeScan, scanFold, diagScore,
    List.range', List.foldl, exCfg, exTb, exKh0]

lemma mergeUpd_ex : mergeUpd exCfg exTb ['A'] [73] ['A'] [73] 1 1 1 =
    { merged_sequence := ['A'], merged_quality := [40], merged_length := 1,
      ee_merged := 1/10, ee_fwd := 1/10, ee_rev := 1/10,
      fwd_errors := 0, rev_errors := 0, accepted := true, reason := Reason.ok } := by
  norm_num [mergeUpd, overlapCells, merge_sym, List.range_succ, exCfg, exTb]
  decide

lemma process_ex : process exCfg exTb exKh0 exSlot = some exMerged := by
  show processAux _ _ _ _ _ _ _ _ _ _ = _
  simp only [processAux, exSlot, List.take, lenCheck_ex, truncStage_ex, nStage_ex,
    optimize_ex, processFinish, applySlot]
  norm_num [exMerged, mergeUpd_ex]

/-! ## Claim theorems -/

/-- C1: For every read pair reaching the overlap optimizer, the rejection
checks are applied exactly in the spec's order — repeat, staggered,
maxdiffs, maxdiffpct, nokmers, minscore, minovlen, minmergelen,
maxmergelen — the first failing check determines the Reason and `optimize`
returns 0, otherwise it returns the winning overlap length `best_i`. -/
theorem optimize_applies_first_failing_check (cfg : Config) (tb : Tables) (kh : KhFun)
    (fs : List Char) (fq : List ℕ) (rs : List Char) (rq : List ℕ) (ft rt : ℕ) :
    optimize cfg tb kh fs fq rs rq ft rt =
      match firstRejection cfg ft rt
          (optimizeScan cfg tb (fun d => kh fs ft rs rt d) fs fq rs rq ft rt) with
      | some r => (some r, 0)
      | none =>
          (none, (optimizeScan cfg tb (fun d => kh fs ft rs rt d) fs fq rs rq ft rt).best_i) :=
  rejectionCascade_eq_firstRejection cfg ft rt
    (optimizeScan cfg tb (fun d => kh fs ft rs rt d) fs fq rs rq ft rt)

/-- C2 counterexample: a pair whose forward read (length 3) is below
`minlen = 5` — the first failing check in the claimed order — records
Reason `maxlen` (its reverse read has length 20 > `maxlen = 10`), because
the maxlen check of `process` is not short-circuited by the minlen
failure and overwrites the Reason. -/
theorem process_not_first_failing_counterexample :
    (exSlotShortLong.fwd_length : ℤ) < exCfgLen.fastq_minlen ∧
    (process exCfgLen exTb exKh0 exSlotShortLong).map Slot.reason = some Reason.maxlen :=
  ⟨by decide, by decide⟩

/-- C2 (amended): the two raw-length checks are both evaluated on every
pair (a maxlen failure overwrites a minlen Reason when both fail); from
the quality-truncation stage onward every failing check sets the Reason
and short-circuits the rest.  Stage by stage: a failing forward
truncation records `minlen` and skips the reverse truncation, both
N stages and the optimizer (truncated reverse length stays the raw
length, qualities stay untouched); a failing reverse truncation records
`minlen` and skips both N stages and the optimizer; a failing forward
N count records `maxns` after recoding only the forward qualities,
skipping the reverse N stage and the optimizer; a failing reverse
N count records `maxns` with both quality strings recoded; and only when
every check passes does the optimizer (and, on an accepted offset, the
merger) run and determine the Reason. -/
theorem process_check_order_short_circuit (cfg : Config) (tb : Tables) (kh : KhFun) (s : Slot) :
    ((s.fwd_length : ℤ) < cfg.fastq_minlen ∨ (s.rev_length : ℤ) < cfg.fastq_minlen →
      process cfg tb kh s = some
        { s with merged := false, fwd_trunc := s.fwd_length, rev_trunc := s.rev_length,
                 offset := 0,
                 reason := if (s.fwd_length : ℤ) > cfg.fastq_maxlen
                              ∨ (s.rev_length : ℤ) > cfg.fastq_maxlen
                           then Reason.maxlen else Reason.minlen }) ∧
    (¬ ((s.fwd_length : ℤ) < cfg.fastq_minlen ∨ (s.rev_length : ℤ) < cfg.fastq_minlen) →
     ¬ ((s.fwd_length : ℤ) > cfg.fastq_maxlen ∨ (s.rev_length : ℤ) > cfg.fastq_maxlen) →
     ∀ brkF, truncFind cfg (s.fwd_quality.take s.fwd_length) = some brkF →
       ((((brkF.getD s.fwd_length : ℕ) : ℤ) < cfg.fastq_minlen →
         process cfg tb kh s = some
           { s with merged := false, fwd_trunc := brkF.getD s.fwd_length,
                    rev_trunc := s.rev_length, offset := 0, reason := Reason.minlen }) ∧
        (¬ ((brkF.getD s.fwd_length : ℕ) : ℤ) < cfg.fastq_minlen →
         ∀ brkR, truncFind cfg (s.rev_quality.take s.rev_length) = some brkR →
           ((((brkR.getD s.rev_length : ℕ) : ℤ) < cfg.fastq_minlen →
             process cfg tb kh s = some
               { s with merged := false, fwd_trunc := brkF.getD s.fwd_length,
                        rev_trunc := brkR.getD s.rev_length, offset := 0,
                        reason := Reason.minlen }) ∧
            (¬ ((brkR.getD s.rev_length : ℕ) : ℤ) < cfg.fastq_minlen →
             ((cfg.fastq_maxns < (ncount s.fwd_sequence (brkF.getD s.fwd_length) : ℤ) →
               process cfg tb kh s = some
                 { s with merged := false, fwd_trunc := brkF.getD s.fwd_length,
                          rev_trunc := brkR.getD s.rev_length,
                          fwd_quality := recode_n cfg.fastq_ascii s.fwd_sequence
                            s.fwd_quality (brkF.getD s.fwd_length),
                          offset := 0, reason := Reason.maxns }) ∧
              (¬ cfg.fastq_maxns < (ncount s.fwd_sequence (brkF.getD s.fwd_length) : ℤ) →
               ((cfg.fastq_maxns < (ncount s.rev_sequence (brkR.getD s.rev_length) : ℤ) →
                 process cfg tb kh s = some
                   { s with merged := false, fwd_trunc := brkF.getD s.fwd_length,
                            rev_trunc := brkR.getD s.rev_length,
                            fwd_quality := recode_n cfg.fastq_ascii s.fwd_sequence
                              s.fwd_quality (brkF.getD s.fwd_length),
                            rev_quality := recode_n cfg.fastq_ascii s.rev_sequence
                              s.rev_quality (brkR.getD s.rev_length),
                            offset := 0, reason := Reason.maxns }) ∧
                (¬ cfg.fastq_maxns < (ncount s.rev_sequence (brkR.getD s.rev_length) : ℤ) →
                 process cfg tb kh s = some
                   (processFinish cfg tb s.fwd_sequence
                     (recode_n cfg.fastq_ascii s.fwd_sequence s.fwd_quality
                       (brkF.getD s.fwd_length))
                     s.rev_sequence
                     (recode_n cfg.fastq_ascii s.rev_sequence s.rev_quality
                       (brkR.getD s.rev_length))
                     (brkF.getD s.fwd_length) (brkR.getD s.rev_length) none
                     (optimize cfg tb kh s.fwd_sequence
                       (recode_n cfg.fastq_ascii s.fwd_sequence s.fwd_quality
                         (brkF.getD s.fwd_length))
                       s.rev_sequence
                       (recode_n cfg.fastq_ascii s.rev_sequence s.rev_quality
                         (brkR.getD s.rev_length))
                       (brkF.getD s.fwd_length) (brkR.getD s.rev_length))
                     s)))))))))) := by
  constructor
  · intro h1
    show processAux _ _ _ _ _ _ _ _ _ _ = _
    by_cases h2 : (s.fwd_length : ℤ) > cfg.fastq_maxlen ∨ (s.rev_length : ℤ) > cfg.fastq_maxlen
    · simp [processAux, lenCheck, truncStage, nStage, processFinish, applySlot, h1, h2]
    · simp [processAux, lenCheck, truncStage, nStage, processFinish, applySlot, h1, h2]
  · intro h1 h2 brkF hSF
    have hlc : lenCheck cfg s.fwd_length s.rev_length = (none, false) := by
      simp [lenCheck, h1, h2]
    constructor
    · intro hftFail
      show processAux _ _ _ _ _ _ _ _ _ _ = _
      simp [processAux, hlc, truncStage, hSF, hftFail, nStage, processFinish, applySlot]
    · intro hftPass brkR hSR
      constructor
      · intro hrtFail
        show processAux _ _ _ _ _ _ _ _ _ _ = _
        simp [processAux, hlc, truncStage, hSF, hSR, hftPass, hrtFail, nStage,
          processFinish, applySlot]
      · intro hrtPass
        constructor
        · intro hNF
          show processAux _ _ _ _ _ _ _ _ _ _ = _
          simp [processAux, hlc, truncStage, hSF, hSR, hftPass, hrtPass, nStage, hNF,
            processFinish, applySlot]
        · intro hNFpass
          constructor
          · intro hNR
            show processAux _ _ _ _ _ _ _ _ _ _ = _
            simp [processAux, hlc, truncStage, hSF, hSR, hftPass, hrtPass, nStage,
              hNFpass, hNR, processFinish, applySlot]
          · intro hNRpass
            show processAux _ _ _ _ _ _ _ _ _ _ = _
            simp [processAux, hlc, truncStage, hSF, hSR, hftPass, hrtPass, nStage,
              hNFpass, hNRpass]

/-- Witness for C2 (amended): a concrete pair failing the forward
N-count check records `maxns`, with only the forward qualities recoded
and the optimizer never run. -/
theorem process_check_order_short_circuit_witness :
    process exCfgNs exTb exKh0 exSlotN = some
      { exSlotN with merged := false,
                     fwd_trunc := (none : Option ℕ).getD exSlotN.fwd_length,
                     rev_trunc := (none : Option ℕ).getD exSlotN.rev_length,
                     fwd_quality := recode_n exCfgNs.fastq_ascii exSlotN.fwd_sequence
                       exSlotN.fwd_quality ((none : Option ℕ).getD exSlotN.fwd_length),
                     offset := 0, reason := Reason.maxns } :=
  ((((process_check_order_short_circuit exCfgNs exTb exKh0 exSlotN).2 (by decide) (by decide) none
      (by decide)).2 (by decide) none (by decide)).2 (by decide)).1 (by decide)

/-- C3: for every pair for which the optimizer returned an accepted
(positive) offset the merger has run, and afterwards the Reason is `ok`
with the merged flag set exactly when the merged expected error is at
most the configured ceiling, and `maxee` with the merged flag still false
otherwise; `ok` and `maxee` are the only Reasons possible after a
successful alignment. -/
theorem process_accepted_offset_reason (cfg : Config) (tb : Tables) (kh : KhFun)
    (s t : Slot) (h : process cfg tb kh s = some t) (ho : 0 < t.offset) :
    (t.reason = Reason.ok ∨ t.reason = Reason.maxee) ∧
    (t.reason = Reason.ok ↔ t.ee_merged ≤ cfg.fastq_maxee) ∧
    (t.merged = true ↔ t.ee_merged ≤ cfg.fastq_maxee) := by
  obtain ⟨p1, p2, hT1, hT2, ht⟩ :=
    processAux_eq_some cfg tb kh s.fwd_sequence s.rev_sequence s.fwd_quality
      s.rev_quality s.fwd_length s.rev_length s t h
  subst ht
  rw [processFinish_offset_pos _ _ _ _ _ _ _ _ _ _ _ ho]
  obtain ⟨ha, hr⟩ := mergeUpd_fields cfg tb s.fwd_sequence
    (nStage cfg s.fwd_sequence s.fwd_quality p1.2 p2.1).2 s.rev_sequence
    (nStage cfg s.rev_sequence s.rev_quality p2.2
      (nStage cfg s.fwd_sequence s.fwd_quality p1.2 p2.1).1).2 p1.2 p2.2
    (if (nStage cfg s.rev_sequence s.rev_quality p2.2
          (nStage cfg s.fwd_sequence s.fwd_quality p1.2 p2.1).1).1.2
     then ((none : Option Reason), 0)
     else optimize cfg tb kh s.fwd_sequence
            (nStage cfg s.fwd_sequence s.fwd_quality p1.2 p2.1).2 s.rev_sequence
            (nStage cfg s.rev_sequence s.rev_quality p2.2
              (nStage cfg s.fwd_sequence s.fwd_quality p1.2 p2.1).1).2 p1.2 p2.2).2
  simp only [applySlot] at *
  by_cases hee : (mergeUpd cfg tb s.fwd_sequence
      (nStage cfg s.fwd_sequence s.fwd_quality p1.2 p2.1).2 s.rev_sequence
      (nStage cfg s.rev_sequence s.rev_quality p2.2
        (nStage cfg s.fwd_sequence s.fwd_quality p1.2 p2.1).1).2 p1.2 p2.2
      (if (nStage cfg s.rev_sequence s.rev_quality p2.2
            (nStage cfg s.fwd_sequence s.fwd_quality p1.2 p2.1).1).1.2
       then ((none : Option Reason), 0)
       else optimize cfg tb kh s.fwd_sequence
              (nStage cfg s.fwd_sequence s.fwd_quality p1.2 p2.1).2 s.rev_sequence
              (nStage cfg s.rev_sequence s.rev_quality p2.2
                (nStage cfg s.fwd_sequence s.fwd_quality p1.2 p2.1).1).2 p1.2 p2.2).2).ee_merged
      ≤ cfg.fastq_maxee
  · simp_all
  · simp_all

/-- Witness for C3: the length-1 pair merges (`exMerged`), its offset is
positive, and the classification facts hold for it. -/
theorem process_accepted_offset_reason_witness :
    (exMerged.reason = Reason.ok ∨ exMerged.reason = Reason.maxee) ∧
    (exMerged.reason = Reason.ok ↔ exMerged.ee_merged ≤ exCfg.fastq_maxee) ∧
    (exMerged.merged = true ↔ exMerged.ee_merged ≤ exCfg.fastq_maxee) :=
  process_accepted_offset_reason exCfg exTb exKh0 exSlot exMerged process_ex (by decide)

/-- In `merge_sym`, agreeing symbols yield the common symbol. -/
lemma merge_sym_agree (tb : Tables) (a b : Char) (q1 q2 : ℕ) (h : a = b) :
    (merge_sym tb a b q1 q2).1 = a := by
  subst h
  unfold merge_sym
  split_ifs <;> rfl

lemma getD_mem {l : List ℕ} {n : ℕ} (h : n < l.length) (d : ℕ) : l.getD n d ∈ l := by
  rw [List.getD_eq_get l d h]
  exact List.get_mem l n h

/-- C4: for a pair merged with an accepted offset (`1 ≤ o < ft + rt`,
with the slot invariant that the truncated lengths are within the
buffers and all quality symbols are valid, i.e. at least 2), the merged
length is `fwd_trunc + rev_trunc - offset`, both output buffers have
exactly that many entries (the model of null-termination at that
length), the merged sequence starts with the forward-only overhang
`fs.take (ft - o)`, ends with the reverse-complement suffix, and on
every overlap position where the two sides agree the consensus equals
the common base. -/
theorem mergeUpd_three_zones (cfg : Config) (tb : Tables) (fs : List Char) (fq : List ℕ)
    (rs : List Char) (rq : List ℕ) (ft rt o : ℕ)
    (hft : ft ≤ fs.length) (hfq : ft ≤ fq.length)
    (hrt : rt ≤ rs.length) (hrq : rt ≤ rq.length)
    (ho1 : 1 ≤ o) (ho2 : o < ft + rt)
    (hq2f : ∀ q ∈ fq, 2 ≤ q) (hq2r : ∀ q ∈ rq, 2 ≤ q) :
    (mergeUpd cfg tb fs fq rs rq ft rt o).merged_length = ft + rt - o ∧
    (mergeUpd cfg tb fs fq rs rq ft rt o).merged_sequence.length = ft + rt - o ∧
    (mergeUpd cfg tb fs fq rs rq ft rt o).merged_quality.length = ft + rt - o ∧
    (mergeUpd cfg tb fs fq rs rq ft rt o).merged_sequence.take (ft - o) = fs.take (ft - o) ∧
    (mergeUpd cfg tb fs fq rs rq ft rt o).merged_sequence.drop
        ((ft - o) + min (ft - (ft - o)) (rt - (o - ft)))
      = ((rs.take ((rt - (o - ft)) - min (ft - (ft - o)) (rt - (o - ft)))).reverse).map tb.comp ∧
    (∀ j < min (ft - (ft - o)) (rt - (o - ft)),
      fs.getD ((ft - o) + j) 'A' = tb.comp (rs.getD ((rt - (o - ft)) - 1 - j) 'A') →
      (mergeUpd cfg tb fs fq rs rq ft rt o).merged_sequence.getD ((ft - o) + j) 'A'
        = fs.getD ((ft - o) + j) 'A') := by
  simp only [mergeUpd, overlapCells]
  set fwd5 := ft - o with hfwd5
  set rev3 := o - ft with hrev3
  set rcount := rt - rev3 with hrcount
  set n2 := min (ft - fwd5) rcount with hn2
  have hn2f : fwd5 + n2 ≤ ft := by omega
  have hn2r : n2 ≤ rcount := by omega
  have hrc : rcount ≤ rt := by omega
  have h1 : (fs.take fwd5).length = fwd5 := by
    rw [List.length_take]
    omega
  have h1q : (fq.take fwd5).length = fwd5 := by
    rw [List.length_take]
    omega
  have hmaplen : ∀ (g : ℕ → OverlapCell),
      (((List.range n2).map g).map OverlapCell.sym).length = n2 := by
    intro g
    simp
  have h3 : ((rs.take (rcount - n2)).reverse.map tb.comp).length = rcount - n2 := by
    rw [List.length_map, List.length_reverse, List.length_take]
    omega
  have h3q : ((rq.take (rcount - n2)).reverse).length = rcount - n2 := by
    rw [List.length_reverse, List.length_take]
    omega
  have htot : ft + rt - o = fwd5 + n2 + (rcount - n2) := by omega
  refine ⟨?_, ?_, ?_, ?_, ?_, ?_⟩
  · simp only [List.length_append, List.length_map, List.length_reverse,
      List.length_take, List.length_range]
    omega
  · simp only [List.length_append, List.length_map, List.length_reverse,
      List.length_take, List.length_range]
    omega
  · simp only [List.length_append, List.length_map, List.length_reverse,
      List.length_take, List.length_range]
    omega
  · rw [List.append_assoc, List.take_append_of_le_length (le_of_eq h1.symm),
      List.take_take, min_self]
  · rw [List.drop_left']
    simp [h1]
  · intro j hj hagree
    rw [List.append_assoc,
      List.getD_append_right _ _ _ _ (by rw [h1]; omega),
      h1, Nat.add_sub_cancel_left,
      List.getD_append _ _ _ _ (by simpa using hj)]
    rw [List.map_map, List.getD_eq_get _ _ (by simpa using hj), List.get_map, List.get_range]
    simp only [Function.comp]
    have hfqp : fwd5 + j < fq.length := by omega
    have hrqp : rcount - 1 - j < rq.length := by omega
    have hf2 : 2 ≤ fq.getD (fwd5 + j) 0 := hq2f _ (getD_mem hfqp 0)
    have hr2 : 2 ≤ rq.getD (rcount - 1 - j) 0 := hq2r _ (getD_mem hrqp 0)
    rw [if_neg (by omega), if_neg (by omega)]
    exact merge_sym_agree tb _ _ _ _ hagree


/-- C6 counterexample: with the default minimum diagonal count 4 and a
k-mer index reporting no shared k-mers, the mismatch-percentage test is
evaluated (repeat, staggered and maxdiffs all pass) while `best_i = 0`,
and the pair is classified `nokmers` only afterwards.  This refutes the
claim that `100.0 * best_diffs / best_i` is never computed with
`best_i = 0`. -/
theorem optimize_maxdiffpct_divisor_zero_counterexample :
    maxdiffpctEvaluated exCfgNk 5 exScanNk ∧ exScanNk.best_i = 0 ∧
    optimize exCfgNk exTb exKh0 exSeq5 exQual5 exSeq5 exQual5 5 5
      = (some Reason.nokmers, 0) := by
  refine ⟨by decide, by decide, ?_⟩
  show rejectionCascade _ _ _ _ = _
  have hst : optimizeScan exCfgNk exTb (fun d => exKh0 exSeq5 5 exSeq5 5 d)
      exSeq5 exQual5 exSeq5 exQual5 5 5
      = { best_score := 0, best_i := 0, best_diffs := 0, hits := 0, kmers := false } := by
    decide
  rw [hst]
  norm_num [rejectionCascade, exCfgNk, exCfg]

/-- C6 (amended): the mismatch-percentage test of `optimize` can be
reached with `best_i = 0` (whenever no diagonal yields a positive score,
in particular when no diagonal has enough shared k-mers); in that case
`best_diffs = 0` as well, the quotient `100 * best_diffs / best_i` is `0/0`
(`NaN` in the source, which compares false; `0` in the rational model), and
— provided the configured maximum percentage is non-negative — the test
never fires, so such a pair is never classified `maxdiffpct`. -/
theorem optimize_maxdiffpct_divisor_zero_amended (cfg : Config) (tb : Tables)
    (kh : KhFun) (fs : List Char) (fq : List ℕ) (rs : List Char) (rq : List ℕ)
    (ft rt : ℕ)
    (hev : maxdiffpctEvaluated cfg ft
      (optimizeScan cfg tb (fun d => kh fs ft rs rt d) fs fq rs rq ft rt))
    (h0 : (optimizeScan cfg tb (fun d => kh fs ft rs rt d) fs fq rs rq ft rt).best_i = 0)
    (hpct : 0 ≤ cfg.fastq_maxdiffpct) :
    (optimizeScan cfg tb (fun d => kh fs ft rs rt d) fs fq rs rq ft rt).best_diffs = 0 ∧
    100 * ((optimizeScan cfg tb (fun d => kh fs ft rs rt d) fs fq rs rq ft rt).best_diffs : ℚ)
      / ((optimizeScan cfg tb (fun d => kh fs ft rs rt d) fs fq rs rq ft rt).best_i : ℚ) = 0 ∧
    (optimize cfg tb kh fs fq rs rq ft rt).1 ≠ some Reason.maxdiffpct := by
  set st := optimizeScan cfg tb (fun d => kh fs ft rs rt d) fs fq rs rq ft rt with hstdef
  have hd : st.best_diffs = 0 :=
    optimizeScan_best_i_zero cfg tb (fun d => kh fs ft rs rt d) fs fq rs rq ft rt h0
  have hquot : 100 * (st.best_diffs : ℚ) / (st.best_i : ℚ) = 0 := by
    rw [hd, h0]
    norm_num
  refine ⟨hd, hquot, ?_⟩
  obtain ⟨he1, he2, he3⟩ := hev
  show (rejectionCascade cfg ft rt st).1 ≠ some Reason.maxdiffpct
  unfold rejectionCascade
  rw [if_neg he1, if_neg he2, if_neg he3, if_neg (by rw [hquot]; exact not_lt.mpr hpct)]
  split_ifs <;> simp

lemma keep_or_discard_counts (st : RunStats) (s : Slot) :
    (keep_or_discard st s).merged + (keep_or_discard st s).notmerged
      = st.merged + st.notmerged + 1 ∧
    (keep_or_discard st s).total = st.total := by
  unfold keep_or_discard keepStep discardStep
  split_ifs <;> simp <;> omega

lemma runMerge_counts (cfg : Config) (tb : Tables) (kh : KhFun) (inputs : List Slot) :
    ∀ (st0 st : RunStats), runMerge cfg tb kh inputs st0 = some st →
      st.merged + st.notmerged = st0.merged + st0.notmerged + inputs.length ∧
      st.total = st0.total + inputs.length := by
  induction inputs with
  | nil =>
      intro st0 st h
      simp only [runMerge] at h
      obtain rfl := Option.some_inj.mp h
      simp
  | cons s rest ih =>
      intro st0 st h
      unfold runMerge at h
      cases hp : process cfg tb kh s with
      | none => rw [hp] at h; cases h
      | some t =>
          rw [hp] at h
          obtain ⟨hmn, htot⟩ := ih _ _ h
          obtain ⟨hk1, hk2⟩ := keep_or_discard_counts { st0 with total := st0.total + 1 } t
          simp only [List.length_cons]
          simp only [] at hk1 hk2
          constructor <;> omega

lemma lenCheck_no_indel (cfg : Config) (fl rl : ℕ) :
    (lenCheck cfg fl rl).1 ≠ some Reason.indel := by
  unfold lenCheck
  split_ifs <;> simp

lemma truncStage_no_indel (cfg : Config) (qs : List ℕ) (len : ℕ)
    (r : Option Reason × Bool) (p : (Option Reason × Bool) × ℕ)
    (h : truncStage cfg qs len r = some p)
    (hr : r.1 ≠ some Reason.indel) : p.1.1 ≠ some Reason.indel := by
  unfold truncStage at h
  split at h
  · obtain rfl := Option.some_inj.mp h
    exact hr
  · split at h
    · cases h
    · split at h <;> obtain rfl := Option.some_inj.mp h <;> simp_all

lemma nStage_no_indel (cfg : Config) (seq : List Char) (qual : List ℕ) (trunc : ℕ)
    (r : Option Reason × Bool) (hr : r.1 ≠ some Reason.indel) :
    (nStage cfg seq qual trunc r).1.1 ≠ some Reason.indel := by
  unfold nStage
  split_ifs <;> simp_all

lemma rejectionCascade_no_indel (cfg : Config) (ft rt : ℕ) (st : ScanState) :
    (rejectionCascade cfg ft rt st).1 ≠ some Reason.indel := by
  unfold rejectionCascade
  split_ifs <;> simp

lemma processFinish_reason_cases (cfg : Config) (tb : Tables) (fs : List Char)
    (fq2 : List ℕ) (rs : List Char) (rq2 : List ℕ) (ft rt : ℕ) (rr : Option Reason)
    (opt : Option Reason × ℕ) (s0 : Slot) :
    (processFinish cfg tb fs fq2 rs rq2 ft rt rr opt s0).reason = Reason.ok ∨
    (processFinish cfg tb fs fq2 rs rq2 ft rt rr opt s0).reason = Reason.maxee ∨
    (processFinish cfg tb fs fq2 rs rq2 ft rt rr opt s0).reason
      = opt.1.getD (rr.getD s0.reason) := by
  unfold processFinish
  split_ifs with hpos
  · obtain ⟨ha, hrw⟩ := mergeUpd_fields cfg tb fs fq2 rs rq2 ft rt opt.2
    simp only [applySlot, hrw]
    split_ifs <;> simp
  · right; right; rfl

lemma getD_no_indel (o1 o2 : Option Reason) (r0 : Reason)
    (h1 : o1 ≠ some Reason.indel) (h2 : o2 ≠ some Reason.indel)
    (h0 : r0 ≠ Reason.indel) : o1.getD (o2.getD r0) ≠ Reason.indel := by
  rcases o1 with _ | a <;> rcases o2 with _ | b <;> simp_all

lemma process_no_indel (cfg : Config) (tb : Tables) (kh : KhFun) (s t : Slot)
    (hs : s.reason ≠ Reason.indel) (h : process cfg tb kh s = some t) :
    t.reason ≠ Reason.indel := by
  obtain ⟨p1, p2, hT1, hT2, ht⟩ :=
    processAux_eq_some cfg tb kh s.fwd_sequence s.rev_sequence s.fwd_quality
      s.rev_quality s.fwd_length s.rev_length s t h
  have hrr : (nStage cfg s.rev_sequence s.rev_quality p2.2
      (nStage cfg s.fwd_sequence s.fwd_quality p1.2 p2.1).1).1.1 ≠ some Reason.indel :=
    nStage_no_indel _ _ _ _ _
      (nStage_no_indel _ _ _ _ _
        (truncStage_no_indel _ _ _ _ _ hT2
          (truncStage_no_indel _ _ _ _ _ hT1 (lenCheck_no_indel cfg _ _))))
  subst ht
  rcases processFinish_reason_cases cfg tb s.fwd_sequence
      (nStage cfg s.fwd_sequence s.fwd_quality p1.2 p2.1).2 s.rev_sequence
      (nStage cfg s.rev_sequence s.rev_quality p2.2
        (nStage cfg s.fwd_sequence s.fwd_quality p1.2 p2.1).1).2 p1.2 p2.2
      (nStage cfg s.rev_sequence s.rev_quality p2.2
        (nStage cfg s.fwd_sequence s.fwd_quality p1.2 p2.1).1).1.1
      (if (nStage cfg s.rev_sequence s.rev_quality p2.2
            (nStage cfg s.fwd_sequence s.fwd_quality p1.2 p2.1).1).1.2
       then ((none : Option Reason), 0)
       else optimize cfg tb kh s.fwd_sequence
              (nStage cfg s.fwd_sequence s.fwd_quality p1.2 p2.1).2 s.rev_sequence
              (nStage cfg s.rev_sequence s.rev_quality p2.2
                (nStage cfg s.fwd_sequence s.fwd_quality p1.2 p2.1).1).2 p1.2 p2.2)
      s with hc | hc | hc <;> rw [hc]
  · simp
  · simp
  · apply getD_no_indel
    · split_ifs
      · simp
      · exact rejectionCascade_no_indel cfg p1.2 p2.2 _
    · exact hrr
    · exact hs

lemma keep_or_discard_indel (st : RunStats) (t : Slot) (h : t.reason ≠ Reason.indel) :
    (keep_or_discard st t).failed Reason.indel = st.failed Reason.indel := by
  unfold keep_or_discard keepStep discardStep
  split_ifs
  · rfl
  · simp only []
    rw [if_neg]
    rintro ⟨h1, h2⟩
    exact h h1.symm

lemma runMerge_indel (cfg : Config) (tb : Tables) (kh : KhFun) (inputs : List Slot) :
    ∀ (st0 st : RunStats), (∀ s ∈ inputs, s.reason ≠ Reason.indel) →
      runMerge cfg tb kh inputs st0 = some st →
      st.failed Reason.indel = st0.failed Reason.indel := by
  induction inputs with
  | nil =>
      intro st0 st _ h
      simp only [runMerge] at h
      obtain rfl := Option.some_inj.mp h
      rfl
  | cons s rest ih =>
      intro st0 st hmem h
      unfold runMerge at h
      cases hp : process cfg tb kh s with
      | none => rw [hp] at h; cases h
      | some t =>
          rw [hp] at h
          have hnt : t.reason ≠ Reason.indel :=
            process_no_indel cfg tb kh s t (hmem s (List.mem_cons_self _ _)) hp
          have hstep := keep_or_discard_indel { st0 with total := st0.total + 1 } t hnt
          rw [ih _ _ (fun x hx => hmem x (List.mem_cons_of_mem _ hx)) h, hstep]


/-- C5: every processed pair is classified by exactly one of `keep`
(incrementing `merged`) and `discard` (incrementing `notmerged`), each
pair read increments `total` exactly once, and hence at the end of every
run the `merged` counter plus the `notmerged` counter equals the total
number of pairs read. -/
theorem merged_notmerged_total (cfg : Config) (tb : Tables) (kh : KhFun)
    (inputs : List Slot) :
    (∀ (st : RunStats) (s : Slot),
        (keep_or_discard st s).merged + (keep_or_discard st s).notmerged
          = st.merged + st.notmerged + 1) ∧
    Option.elim (runMerge cfg tb kh inputs initStats) True
      (fun st => st.merged + st.notmerged = st.total ∧ st.total = inputs.length) := by
  refine ⟨fun st s => (keep_or_discard_counts st s).1, ?_⟩
  cases hr : runMerge cfg tb kh inputs initStats with
  | none => exact trivial
  | some st =>
      obtain ⟨h1, h2⟩ := runMerge_counts cfg tb kh inputs initStats st hr
      simp only [Option.elim]
      simp [initStats] at h1 h2
      exact ⟨by omega, by omega⟩

/-- C9: `process` never records Reason `indel`: starting from any slot
whose reason is not `indel` (slots start as `undefined`), the processed
slot's reason is never `indel`; over a whole run the `failed_indel`
counter stays 0 and the "indel errors" report line is never printed. -/
theorem indel_never_assigned (cfg : Config) (tb : Tables) (kh : KhFun) :
    (∀ s t : Slot, s.reason ≠ Reason.indel → process cfg tb kh s = some t →
        t.reason ≠ Reason.indel) ∧
    ∀ inputs : List Slot, (∀ s ∈ inputs, s.reason ≠ Reason.indel) →
      Option.elim (runMerge cfg tb kh inputs initStats) True
        (fun st => st.failed Reason.indel = 0 ∧ ¬ indelLineShown st) := by
  refine ⟨fun s t hs h => process_no_indel cfg tb kh s t hs h, ?_⟩
  intro inputs hmem
  cases hr : runMerge cfg tb kh inputs initStats with
  | none => exact trivial
  | some st =>
      have hz := runMerge_indel cfg tb kh inputs initStats st hmem hr
      simp only [Option.elim]
      constructor
      · rw [hz]
        rfl
      · unfold indelLineShown
        rw [hz]
        simp [initStats]

/-- Witness for C9 at a concrete pair and a concrete one-pair run. -/
theorem indel_never_assigned_witness :
    exMerged.reason ≠ Reason.indel ∧
    Option.elim (runMerge exCfg exTb exKh0 [exSlot] initStats) True
      (fun st => st.failed Reason.indel = 0 ∧ ¬ indelLineShown st) :=
  ⟨(indel_never_assigned exCfg exTb exKh0).1 exSlot exMerged (by decide) process_ex,
   (indel_never_assigned exCfg exTb exKh0).2 [exSlot]
     (by intro s hs
         rw [List.mem_singleton] at hs
         subst hs
         decide)⟩

/-- Witness for C4 at the concrete length-1 merged pair. -/
theorem mergeUpd_three_zones_witness :
    (mergeUpd exCfg exTb ['A'] [73] ['A'] [73] 1 1 1).merged_length = 1 + 1 - 1 ∧
    (mergeUpd exCfg exTb ['A'] [73] ['A'] [73] 1 1 1).merged_sequence.length = 1 + 1 - 1 ∧
    (mergeUpd exCfg exTb ['A'] [73] ['A'] [73] 1 1 1).merged_quality.length = 1 + 1 - 1 ∧
    (mergeUpd exCfg exTb ['A'] [73] ['A'] [73] 1 1 1).merged_sequence.take (1 - 1)
      = (['A'] : List Char).take (1 - 1) ∧
    (mergeUpd exCfg exTb ['A'] [73] ['A'] [73] 1 1 1).merged_sequence.drop
        ((1 - 1) + min (1 - (1 - 1)) (1 - (1 - 1)))
      = (((['A'] : List Char).take ((1 - (1 - 1)) - min (1 - (1 - 1)) (1 - (1 - 1)))).reverse).map
          exTb.comp ∧
    (∀ j < min (1 - (1 - 1)) (1 - (1 - 1)),
      (['A'] : List Char).getD ((1 - 1) + j) 'A'
          = exTb.comp ((['A'] : List Char).getD ((1 - (1 - 1)) - 1 - j) 'A') →
      (mergeUpd exCfg exTb ['A'] [73] ['A'] [73] 1 1 1).merged_sequence.getD ((1 - 1) + j) 'A'
        = (['A'] : List Char).getD ((1 - 1) + j) 'A') :=
  mergeUpd_three_zones exCfg exTb ['A'] [73] ['A'] [73] 1 1 1 (by decide) (by decide)
    (by decide) (by decide) (by decide) (by decide) (by decide) (by decide)

/-- Witness for C6 (amended) at the concrete no-qualifying-diagonal pair. -/
theorem optimize_maxdiffpct_divisor_zero_amended_witness :
    (optimizeScan exCfgNk exTb (fun d => exKh0 exSeq5 5 exSeq5 5 d)
        exSeq5 exQual5 exSeq5 exQual5 5 5).best_diffs = 0 ∧
    100 * ((optimizeScan exCfgNk exTb (fun d => exKh0 exSeq5 5 exSeq5 5 d)
        exSeq5 exQual5 exSeq5 exQual5 5 5).best_diffs : ℚ)
      / ((optimizeScan exCfgNk exTb (fun d => exKh0 exSeq5 5 exSeq5 5 d)
        exSeq5 exQual5 exSeq5 exQual5 5 5).best_i : ℚ) = 0 ∧
    (optimize exCfgNk exTb exKh0 exSeq5 exQual5 exSeq5 exQual5 5 5).1
      ≠ some Reason.maxdiffpct :=
  optimize_maxdiffpct_divisor_zero_amended exCfgNk exTb exKh0 exSeq5 exQual5 exSeq5
    exQual5 5 5 (by decide) (by decide) (by decide)


lemma lenCheck_skip (cfg : Config) (fl rl : ℕ) :
    (lenCheck cfg fl rl).2 = true → (lenCheck cfg fl rl).1.isSome := by
  unfold lenCheck
  split_ifs <;> simp

lemma truncStage_skip (cfg : Config) (qs : List ℕ) (len : ℕ)
    (r : Option Reason × Bool) (p : (Option Reason × Bool) × ℕ)
    (h : truncStage cfg qs len r = some p)
    (hr : r.2 = true → r.1.isSome) : p.1.2 = true → p.1.1.isSome := by
  unfold truncStage at h
  split at h
  · obtain rfl := Option.some_inj.mp h
    exact hr
  · split at h
    · cases h
    · split at h <;> obtain rfl := Option.some_inj.mp h <;> simp_all

lemma nStage_skip (cfg : Config) (seq : List Char) (qual : List ℕ) (trunc : ℕ)
    (r : Option Reason × Bool) (hr : r.2 = true → r.1.isSome) :
    (nStage cfg seq qual trunc r).1.2 = true → (nStage cfg seq qual trunc r).1.1.isSome := by
  unfold nStage
  split_ifs <;> simp_all

lemma rejectionCascade_none_pos (cfg : Config) (ft rt : ℕ) (st : ScanState)
    (hmin : 1 ≤ cfg.fastq_minovlen)
    (h : (rejectionCascade cfg ft rt st).1 = none) :
    0 < (rejectionCascade cfg ft rt st).2 := by
  have hch := rejectionCascade_eq_firstRejection cfg ft rt st
  rcases hfr : firstRejection cfg ft rt st with _ | r
  · rw [hfr] at hch
    rw [hch]
    show 0 < st.best_i
    unfold firstRejection at hfr
    rcases hf : List.find? (fun c => c.1) (rejectionOrder cfg ft rt st) with _ | c
    · have hall := List.find?_eq_none.mp hf
      have h7 := hall (decide ((st.best_i : ℤ) < cfg.fastq_minovlen), Reason.minovlen)
        (by simp [rejectionOrder])
      simp at h7
      omega
    · rw [hf] at hfr
      simp at hfr
  · rw [hfr] at hch
    rw [hch] at h
    simp at h

lemma processFinish_eq_fields (cfg : Config) (tb : Tables) (fs : List Char)
    (fq2 : List ℕ) (rs : List Char) (rq2 : List ℕ) (ft rt : ℕ) (rr : Option Reason)
    (opt : Option Reason × ℕ) (s1 s2 u1 u2 : Slot)
    (h1 : u1 = processFinish cfg tb fs fq2 rs rq2 ft rt rr opt s1)
    (h2 : u2 = processFinish cfg tb fs fq2 rs rq2 ft rt rr opt s2)
    (hcase : opt.1.isSome ∨ rr.isSome ∨ 0 < opt.2) :
    u1.reason = u2.reason ∧ u1.merged = u2.merged ∧ u1.offset = u2.offset ∧
    u1.fwd_trunc = u2.fwd_trunc ∧ u1.rev_trunc = u2.rev_trunc ∧
    u1.fwd_quality = u2.fwd_quality ∧ u1.rev_quality = u2.rev_quality ∧
    (0 < u1.offset →
      u1.merged_sequence = u2.merged_sequence ∧ u1.merged_quality = u2.merged_quality ∧
      u1.merged_length = u2.merged_length ∧ u1.ee_merged = u2.ee_merged ∧
      u1.ee_fwd = u2.ee_fwd ∧ u1.ee_rev = u2.ee_rev ∧
      u1.fwd_errors = u2.fwd_errors ∧ u1.rev_errors = u2.rev_errors) := by
  subst h1 h2
  by_cases hpos : 0 < opt.2
  · simp only [processFinish, if_pos hpos, applySlot]
    simp
  · simp only [processFinish, if_neg hpos, applySlot]
    rcases hO : opt.1 with _ | r
    · rcases hR : rr with _ | rb
      · rw [hO] at hcase
        rw [hR] at hcase
        simp at hcase
        exact absurd hcase hpos
      · simp [hpos]
    · simp [hpos]

/-- C10 counterexample: two runs of `process` on the same forward and
reverse records (same sequences, qualities, lengths) can leave different
merged-sequence contents, because a pair rejected before the merger keeps
whatever its reused slot buffer last held.  This refutes the claim that
the merged sequence is identical for any two runs on the same records. -/
theorem process_records_determinism_counterexample :
    (exSlotShort.fwd_sequence = exSlotShortB.fwd_sequence ∧
     exSlotShort.rev_sequence = exSlotShortB.rev_sequence ∧
     exSlotShort.fwd_quality = exSlotShortB.fwd_quality ∧
     exSlotShort.rev_quality = exSlotShortB.rev_quality ∧
     exSlotShort.fwd_length = exSlotShortB.fwd_length ∧
     exSlotShort.rev_length = exSlotShortB.rev_length) ∧
    (process exCfgLen exTb exKh0 exSlotShort).map Slot.merged_sequence
      ≠ (process exCfgLen exTb exKh0 exSlotShortB).map Slot.merged_sequence :=
  ⟨by decide, by decide⟩

/-- C10 (amended): under the configuration constraint the program itself
enforces before running (`minovlen ≥ 5`, here weakened to `≥ 1`), two
runs of `process` on slots holding the same forward and reverse records
yield the same Reason, merged flag, offset, truncated lengths and
(recoded) qualities; the merged sequence, merged quality, merged length
and the per-pair error statistics also coincide whenever an offset was
accepted (the merger ran).  A rejected pair's merged buffers keep their
previous slot contents and are therefore not determined by the records
alone. -/
theorem process_records_determine_output (cfg : Config) (tb : Tables) (kh : KhFun) (s1 s2 t1 t2 : Slot)
    (hmin : 1 ≤ cfg.fastq_minovlen)
    (hfs : s1.fwd_sequence = s2.fwd_sequence) (hrs : s1.rev_sequence = s2.rev_sequence)
    (hfq : s1.fwd_quality = s2.fwd_quality) (hrq : s1.rev_quality = s2.rev_quality)
    (hfl : s1.fwd_length = s2.fwd_length) (hrl : s1.rev_length = s2.rev_length)
    (h1 : process cfg tb kh s1 = some t1) (h2 : process cfg tb kh s2 = some t2) :
    t1.reason = t2.reason ∧ t1.merged = t2.merged ∧ t1.offset = t2.offset ∧
    t1.fwd_trunc = t2.fwd_trunc ∧ t1.rev_trunc = t2.rev_trunc ∧
    t1.fwd_quality = t2.fwd_quality ∧ t1.rev_quality = t2.rev_quality ∧
    (0 < t1.offset →
      t1.merged_sequence = t2.merged_sequence ∧ t1.merged_quality = t2.merged_quality ∧
      t1.merged_length = t2.merged_length ∧ t1.ee_merged = t2.ee_merged ∧
      t1.ee_fwd = t2.ee_fwd ∧ t1.ee_rev = t2.ee_rev ∧
      t1.fwd_errors = t2.fwd_errors ∧ t1.rev_errors = t2.rev_errors) := by
  unfold process at h1 h2
  rw [← hfs, ← hrs, ← hfq, ← hrq, ← hfl, ← hrl] at h2
  obtain ⟨p1, p2, hT1, hT2, ht1⟩ := processAux_eq_some _ _ _ _ _ _ _ _ _ _ _ h1
  obtain ⟨q1, q2, hU1, hU2, ht2⟩ := processAux_eq_some _ _ _ _ _ _ _ _ _ _ _ h2
  rw [hT1] at hU1
  obtain rfl := Option.some_inj.mp hU1
  rw [hT2] at hU2
  obtain rfl := Option.some_inj.mp hU2
  refine processFinish_eq_fields cfg tb _ _ _ _ _ _ _ _ s1 s2 t1 t2 ht1 ht2 ?_
  by_cases hsk : (nStage cfg s1.rev_sequence s1.rev_quality p2.2
      (nStage cfg s1.fwd_sequence s1.fwd_quality p1.2 p2.1).1).1.2 = true
  · right; left
    exact nStage_skip _ _ _ _ _
      (nStage_skip _ _ _ _ _
        (truncStage_skip _ _ _ _ _ hT2
          (truncStage_skip _ _ _ _ _ hT1 (lenCheck_skip cfg _ _)))) hsk
  · rcases hO : (optimize cfg tb kh s1.fwd_sequence
        (nStage cfg s1.fwd_sequence s1.fwd_quality p1.2 p2.1).2 s1.rev_sequence
        (nStage cfg s1.rev_sequence s1.rev_quality p2.2
          (nStage cfg s1.fwd_sequence s1.fwd_quality p1.2 p2.1).1).2 p1.2 p2.2).1
      with _ | r
    · right; right
      rw [if_neg hsk]
      exact rejectionCascade_none_pos cfg p1.2 p2.2 _ hmin hO
    · left
      rw [if_neg hsk, hO]
      simp

/-- Witness for C10 (amended), at two identical concrete slots. -/
theorem process_records_determine_output_witness :
    exMerged.reason = exMerged.reason ∧ exMerged.merged = exMerged.merged ∧
    exMerged.offset = exMerged.offset ∧ exMerged.fwd_trunc = exMerged.fwd_trunc ∧
    exMerged.rev_trunc = exMerged.rev_trunc ∧
    exMerged.fwd_quality = exMerged.fwd_quality ∧
    exMerged.rev_quality = exMerged.rev_quality ∧
    (0 < exMerged.offset →
      exMerged.merged_sequence = exMerged.merged_sequence ∧
      exMerged.merged_quality = exMerged.merged_quality ∧
      exMerged.merged_length = exMerged.merged_length ∧
      exMerged.ee_merged = exMerged.ee_merged ∧
      exMerged.ee_fwd = exMerged.ee_fwd ∧ exMerged.ee_rev = exMerged.ee_rev ∧
      exMerged.fwd_errors = exMerged.fwd_errors ∧
      exMerged.rev_errors = exMerged.rev_errors) :=
  process_records_determine_output exCfg exTb exKh0 exSlot exSlot exMerged exMerged (by decide) rfl rfl rfl rfl
    rfl rfl process_ex process_ex


lemma qual_clamped_bounds (ascii qminout qmaxout : ℤ) (p : ℝ) (hq : qminout ≤ qmaxout) :
    (qminout : ℝ) ≤ qual_clamped ascii qminout qmaxout p - ascii ∧
    qual_clamped ascii qminout qmaxout p - ascii ≤ qmaxout := by
  unfold qual_clamped
  constructor
  · simp only [add_sub_cancel_left]
    exact le_max_right _ _
  · simp only [add_sub_cancel_left]
    exact max_le (min_le_right _ _) (by exact_mod_cast hq)

/-- C7: every precomputed merged-quality value — agreement and
disagreement tables alike — lies, after subtracting the ASCII offset,
within the configured output bounds `[qminout, qmaxout]` (assuming
`qminout ≤ qmaxout`), because `precompute_qual` clamps
`round(-10·log10 p)` with `min`/`max` before storing it. -/
theorem precompute_qual_within_output_bounds (ascii qminout qmaxout x y : ℤ)
    (hx1 : 33 ≤ x) (hx2 : x ≤ 126) (hy1 : 33 ≤ y) (hy2 : y ≤ 126)
    (hq : qminout ≤ qmaxout) :
    ((qminout : ℝ) ≤ merge_qual_same_val ascii qminout qmaxout x y - ascii ∧
     merge_qual_same_val ascii qminout qmaxout x y - ascii ≤ qmaxout) ∧
    ((qminout : ℝ) ≤ merge_qual_diff_val ascii qminout qmaxout x y - ascii ∧
     merge_qual_diff_val ascii qminout qmaxout x y - ascii ≤ qmaxout) :=
  ⟨qual_clamped_bounds ascii qminout qmaxout _ hq,
   qual_clamped_bounds ascii qminout qmaxout _ hq⟩

lemma rpow_neg_fifth_le : (10 : ℝ) ^ (-(2 : ℝ) / 10) ≤ 0.75 := by
  have h10 : (0 : ℝ) ≤ 10 := by norm_num
  have ha : (0 : ℝ) ≤ (10 : ℝ) ^ (-(2 : ℝ) / 10) := Real.rpow_nonneg h10 _
  have h5 : ((10 : ℝ) ^ (-(2 : ℝ) / 10)) ^ (5 : ℕ) = 1 / 10 := by
    rw [← Real.rpow_natCast ((10 : ℝ) ^ (-(2 : ℝ) / 10)) 5, ← Real.rpow_mul h10]
    norm_num
  have hb : ((10 : ℝ) ^ (-(2 : ℝ) / 10)) ^ (5 : ℕ) ≤ (0.75 : ℝ) ^ (5 : ℕ) := by
    rw [h5]
    norm_num
  exact le_of_pow_le_pow_left (by norm_num) (by norm_num) hb

/-- C8: `q_to_p` returns exactly 0.75 for every symbol whose quality
value is below 2 and `10^(-quality/10)` otherwise, and it is
monotonically non-increasing in the quality symbol over the whole valid
range 33..126. -/
theorem q_to_p_monotone_non_increasing (ascii x y : ℤ) (hx1 : 33 ≤ x) (hxy : x ≤ y) (hy2 : y ≤ 126) :
    (x - ascii < 2 → q_to_p ascii x = 0.75) ∧
    (2 ≤ x - ascii → q_to_p ascii x = (10 : ℝ) ^ (-((x - ascii : ℤ) : ℝ) / 10)) ∧
    q_to_p ascii y ≤ q_to_p ascii x := by
  refine ⟨?_, ?_, ?_⟩
  · intro h
    unfold q_to_p
    rw [if_pos h]
  · intro h
    unfold q_to_p
    rw [if_neg (by omega)]
  · unfold q_to_p
    by_cases hy : y - ascii < 2
    · rw [if_pos hy, if_pos (by omega)]
    · rw [if_neg hy]
      by_cases hx : x - ascii < 2
      · rw [if_pos hx]
        calc (10 : ℝ) ^ (-((y - ascii : ℤ) : ℝ) / 10)
            ≤ (10 : ℝ) ^ (-(2 : ℝ) / 10) := by
              apply Real.rpow_le_rpow_of_exponent_le (by norm_num)
              have : (2 : ℝ) ≤ ((y - ascii : ℤ) : ℝ) := by exact_mod_cast (by omega : (2:ℤ) ≤ y - ascii)
              linarith
          _ ≤ 0.75 := rpow_neg_fifth_le
      · rw [if_neg hx]
        apply Real.rpow_le_rpow_of_exponent_le (by norm_num)
        have : ((x - ascii : ℤ) : ℝ) ≤ ((y - ascii : ℤ) : ℝ) := by
          exact_mod_cast (by omega : x - ascii ≤ y - ascii)
        linarith

/-- Witness for C8 at symbols 40 ≤ 73 with offset 33. -/
theorem q_to_p_monotone_non_increasing_witness :
    ((40 : ℤ) - 33 < 2 → q_to_p 33 40 = 0.75) ∧
    (2 ≤ (40 : ℤ) - 33 → q_to_p 33 40 = (10 : ℝ) ^ (-(((40 : ℤ) - 33 : ℤ) : ℝ) / 10)) ∧
    q_to_p 33 73 ≤ q_to_p 33 40 :=
  q_to_p_monotone_non_increasing 33 40 73 (by decide) (by decide) (by decide)

/-- Witness for C7 at symbols (40, 50), offset 33, bounds [0, 41]. -/
theorem precompute_qual_within_output_bounds_witness :
    (((0 : ℤ) : ℝ) ≤ merge_qual_same_val 33 0 41 40 50 - (33 : ℤ) ∧
     merge_qual_same_val 33 0 41 40 50 - (33 : ℤ) ≤ ((41 : ℤ) : ℝ)) ∧
    (((0 : ℤ) : ℝ) ≤ merge_qual_diff_val 33 0 41 40 50 - (33 : ℤ) ∧
     merge_qual_diff_val 33 0 41 40 50 - (33 : ℤ) ≤ ((41 : ℤ) : ℝ)) :=
  precompute_qual_within_output_bounds 33 0 41 40 50 (by decide) (by decide) (by decide) (by decide) (by decide)


end Mergepairs
